import Mathlib

/-!
Shallow embedding of `src/acl/RegexData.cc` (Squid's ACL regular-expression
data): the match walk, the dump serializer, wildcard trimming, pattern
compilation, the optimised and unoptimised compilers, and the parse driver.

The external POSIX regex engine (`regcomp` / `regexec`) is modelled as an
abstract `RegexEngine` record: `compiles text flags` stands for `regcomp`
succeeding and `matches text flags word` for `regexec` reporting a match of
the pattern compiled from `text` under `flags` against `word`.  The libc
buffer constant `BUFSIZ` is a platform constant, not defined in this
repository, so the functions take it as an explicit parameter `B`.
-/

/-- Flag bit for POSIX extended regular expression syntax (glibc value). -/
def REG_EXTENDED : Nat := 1

/-- Flag bit for case-insensitive matching (glibc value). -/
def REG_ICASE : Nat := 2

/-- Flag bit for ignoring capture groups (glibc value). -/
def REG_NOSUB : Nat := 4

/-- Clearing the `REG_ICASE` bit, as the C code's `flags &= ~REG_ICASE`
does on a 32-bit `int` holding a small non-negative flag set. -/
def clearICASE (flags : Nat) : Nat := flags &&& (2 ^ 32 - 1 - REG_ICASE)

/-- The external regex engine's two primitives, abstracted:
`compiles text flags` is `regcomp` succeeding, and `matches text flags word`
is `regexec` on the pattern compiled from `text` with `flags`. -/
structure RegexEngine where
  compiles : String → Nat → Bool
  regexec : String → Nat → String → Bool

/-- One compiled pattern, as `RegexPattern` stores it: the compile flags and
the source text (the opaque `regex_t` handle is represented by the engine
functions applied to these two fields). -/
structure RegexPattern where
  flags : Nat
  text : String
deriving DecidableEq, Repr

/-- The walk inside `ACLRegexData::match`: try each compiled pattern in
order, returning true at the first one whose regex matches the word. -/
def matchWalk (eng : RegexEngine) (w : String) : List RegexPattern → Bool
  | [] => false
  | i :: rest => if eng.regexec i.text i.flags w then true else matchWalk eng w rest

/-- `ACLRegexData::match`: a null word is immediately false; otherwise walk
the pattern list. -/
def ACLRegexData.matchWord (eng : RegexEngine) (data : List RegexPattern)
    (word : Option String) : Bool :=
  match word with
  | none => false
  | some w => matchWalk eng w data

/-- The loop body of `ACLRegexData::dump`, threading the running `flags`
tracker (initially `REG_EXTENDED | REG_NOSUB`): an entry whose flags differ
from the tracker first emits `-i` or `+i` according to its `REG_ICASE` bit
and updates the tracker, then every entry emits its source text. -/
def dumpWalk : Nat → List RegexPattern → List String
  | _, [] => []
  | flags, i :: rest =>
    if i.flags ≠ flags then
      (if i.flags &&& REG_ICASE ≠ 0 then "-i" else "+i") :: i.text :: dumpWalk i.flags rest
    else
      i.text :: dumpWalk flags rest

/-- `ACLRegexData::dump`. -/
def ACLRegexData.dump (data : List RegexPattern) : List String :=
  dumpWalk (REG_EXTENDED ||| REG_NOSUB) data

/-- The `while` loop of `removeUnnecessaryWildcards`: strip leading
characters while the string starts with `.` followed by `*`. -/
def stripDotStars : List Char → List Char
  | [] => []
  | [c] => [c]
  | c1 :: c2 :: rest =>
    if c1 = '.' ∧ c2 = '*' then stripDotStars rest else c1 :: c2 :: rest

/-- `removeUnnecessaryWildcards`: drop one leading `^.*`, then leading `.*`
pairs; an empty remainder becomes the catch-all `.*`. -/
def removeUnnecessaryWildcards (t : String) : String :=
  let l := t.data
  let l1 := match l with
            | '^' :: '.' :: '*' :: rest => rest
            | _ => l
  let l2 := stripDotStars l1
  if l2.isEmpty then ".*" else String.mk l2

/-- `compileRE`: a null or empty pattern succeeds (adding nothing) exactly
when the destination list is empty; otherwise the engine compiles the text
and a new `RegexPattern` is appended on success. -/
def compileRE (eng : RegexEngine) (curlist : List RegexPattern)
    (RE : Option String) (flags : Nat) : Option (List RegexPattern) :=
  match RE with
  | none => if curlist.isEmpty then some curlist else none
  | some s =>
    if s = "" then (if curlist.isEmpty then some curlist else none)
    else if eng.compiles s flags then some (curlist ++ [⟨flags, s⟩])
    else none

/-- The loop state of `compileOptimisedREs`: the temporary output list, the
current flags, the accumulation buffer contents (`largeRE`, whose length is
the C code's `largeREindex`), and the merged-pattern counter. -/
structure OptState where
  newlist : List RegexPattern
  flags : Nat
  largeRE : String
  numREs : Nat
deriving DecidableEq, Repr

/-- One iteration of the `for` loop of `compileOptimisedREs`.  `none` is the
`return 0` on a failed flush.  In the buffer-full branch the C code flushes
and executes `continue`, which advances the range-`for` to the next element:
the current token `i` is not placed anywhere. -/
def optStep (eng : RegexEngine) (B : Nat) (s : OptState) (i : String) :
    Option OptState :=
  let RElen := i.length
  if i = "-i" then
    if s.flags &&& REG_ICASE ≠ 0 then some s
    else
      match compileRE eng s.newlist (some s.largeRE) s.flags with
      | none => none
      | some nl => some { s with newlist := nl, flags := s.flags ||| REG_ICASE, largeRE := "" }
  else if i = "+i" then
    if s.flags &&& REG_ICASE = 0 then some s
    else
      match compileRE eng s.newlist (some s.largeRE) s.flags with
      | none => none
      | some nl => some { s with newlist := nl, flags := clearICASE s.flags, largeRE := "" }
  else if RElen + s.largeRE.length + 3 < B - 1 then
    let acc := if s.largeRE.length > 0 then s.largeRE ++ "|" else s.largeRE
    some { s with largeRE := acc ++ "(" ++ i ++ ")", numREs := s.numREs + 1 }
  else
    match compileRE eng s.newlist (some s.largeRE) s.flags with
    | none => none
    | some nl => some { s with newlist := nl, largeRE := "" }

/-- The whole `for` loop of `compileOptimisedREs` over the token list. -/
def optLoop (eng : RegexEngine) (B : Nat) :
    OptState → List String → Option OptState
  | s, [] => some s
  | s, i :: rest =>
    match optStep eng B s i with
    | none => none
    | some s2 => optLoop eng B s2 rest

/-- The initial loop state of `compileOptimisedREs`. -/
def optInit : OptState := ⟨[], REG_EXTENDED ||| REG_NOSUB, "", 0⟩

/-- `compileOptimisedREs`: run the loop, flush the remaining buffer, and on
overall success splice the temporary list onto the tail of the destination
list; `none` is the failure return (the destination list untouched). -/
def compileOptimisedREs (eng : RegexEngine) (B : Nat)
    (curlist : List RegexPattern) (sl : List String) :
    Option (List RegexPattern) :=
  match optLoop eng B optInit sl with
  | none => none
  | some s =>
    match compileRE eng s.newlist (some s.largeRE) s.flags with
    | none => none
    | some nl => some (curlist ++ nl)

/-- The loop of `compileUnoptimisedREs`, threading the current flags: flag
tokens only toggle `REG_ICASE`; each other token is compiled individually,
and a failed compile leaves the list unchanged and moves on. -/
def compileUnoptLoop (eng : RegexEngine) :
    Nat → List RegexPattern → List String → List RegexPattern
  | _, curlist, [] => curlist
  | flags, curlist, i :: rest =>
    if i = "-i" then compileUnoptLoop eng (flags ||| REG_ICASE) curlist rest
    else if i = "+i" then compileUnoptLoop eng (clearICASE flags) curlist rest
    else
      match compileRE eng curlist (some i) flags with
      | some nl => compileUnoptLoop eng flags nl rest
      | none => compileUnoptLoop eng flags curlist rest

/-- `compileUnoptimisedREs` with its initial flags. -/
def compileUnoptimisedREs (eng : RegexEngine) (curlist : List RegexPattern)
    (sl : List String) : List RegexPattern :=
  compileUnoptLoop eng (REG_EXTENDED ||| REG_NOSUB) curlist sl

/-- The token loop of `ACLRegexData::parse`: each raw token is trimmed by
`removeUnnecessaryWildcards`, and a trimmed token longer than `B - 1` is
dropped (with an error message) instead of being buffered. -/
def buildSl (B : Nat) : List String → List String
  | [] => []
  | t :: ts =>
    let clean := removeUnnecessaryWildcards t
    if clean.length > B - 1 then buildSl B ts
    else clean :: buildSl B ts

/-- `ACLRegexData::parse`: build the filtered token list, try the optimised
compiler against the current data, and on its failure hand the same list to
the unoptimised fallback. -/
def ACLRegexData.parse (eng : RegexEngine) (B : Nat)
    (data : List RegexPattern) (tokens : List String) : List RegexPattern :=
  let sl := buildSl B tokens
  match compileOptimisedREs eng B data sl with
  | some newdata => newdata
  | none => compileUnoptimisedREs eng data sl

/-- An engine that accepts and matches everything, for concrete instances. -/
def engAll : RegexEngine := ⟨fun _ _ => true, fun _ _ _ => true⟩

/-- An engine that rejects every pattern, for concrete instances. -/
def engNone : RegexEngine := ⟨fun _ _ => false, fun _ _ _ => false⟩

/-- An engine that compiles everything and matches exactly when the pattern
text equals the word: on pattern texts without metacharacters this agrees
with the POSIX engine when the word is the whole subject. -/
def engEq : RegexEngine := ⟨fun _ _ => true, fun p _ w => p == w⟩

/-- The walk of `ACLRegexData::match` succeeds exactly when some entry of
the list matches the word. -/
theorem matchWalk_eq_true_iff (eng : RegexEngine) (w : String) :
    ∀ l : List RegexPattern,
      (matchWalk eng w l = true ↔ ∃ p ∈ l, eng.regexec p.text p.flags w = true) := by
  intro l
  induction l with
  | nil => simp [matchWalk]
  | cons p rest ih =>
    cases h : eng.regexec p.text p.flags w with
    | true => simp [matchWalk, h]
    | false => simp [matchWalk, h, ih]

/-- C1: `match` on an absent (null) word is false immediately, and on a
present word it walks the compiled `PatternList` and returns true exactly
when some entry's regex matches the word (the walk short-circuits at the
first match), false when no entry matches. -/
theorem match_absent_false_and_walks_list (eng : RegexEngine)
    (data : List RegexPattern) :
    ACLRegexData.matchWord eng data none = false ∧
    ∀ w, (ACLRegexData.matchWord eng data (some w) = true ↔
      ∃ p ∈ data, eng.regexec p.text p.flags w = true) := by
  exact ⟨rfl, fun w => matchWalk_eq_true_iff eng w data⟩

/-- C2: evaluation of `compileOptimisedREs` at a token sequence whose middle
pattern overflows the accumulation buffer (buffer capacity 16, pattern of
length 10 arriving while the accumulator holds `(abc)`): the flush happens,
but the `continue` in the range-`for` advances to the next token, so
`defghijklm` is never placed into the emptied accumulator and never appears
in the successful output, contradicting the flush comment in the source. -/
theorem optimiser_overflow_drops_pattern :
    compileOptimisedREs engAll 16 [] ["abc", "defghijklm", "xy"] =
      some [⟨5, "(abc)"⟩, ⟨5, "(xy)"⟩] := by decide

/-- C3: the optimiser is transactional: the result is either failure, or the
destination list with a block of new entries appended at its end, and that
block is exactly what compiling from an empty destination yields — no
partial entries ever reach the destination list. -/
theorem compileOptimisedREs_transactional (eng : RegexEngine) (B : Nat)
    (curlist : List RegexPattern) (sl : List String) :
    compileOptimisedREs eng B curlist sl =
      (compileOptimisedREs eng B [] sl).map (fun nl => curlist ++ nl) := by
  unfold compileOptimisedREs
  cases hL : optLoop eng B optInit sl with
  | none => rfl
  | some s =>
    cases hC : compileRE eng s.newlist (some s.largeRE) s.flags with
    | none => simp [hC]
    | some nl => simp [hC]

/-- C4: `compileRE` on a null or empty pattern succeeds exactly when the
destination list is empty, and then adds no entry; a non-empty pattern the
engine rejects fails with no entry added. -/
theorem compileRE_empty_and_rejected (eng : RegexEngine)
    (curlist : List RegexPattern) (flags : Nat) (RE : String)
    (hRE : RE ≠ "") (hrej : eng.compiles RE flags = false) :
    ((compileRE eng curlist none flags).isSome ↔ curlist = []) ∧
    (compileRE eng curlist none flags = none ∨
      compileRE eng curlist none flags = some curlist) ∧
    ((compileRE eng curlist (some "") flags).isSome ↔ curlist = []) ∧
    (compileRE eng curlist (some "") flags = none ∨
      compileRE eng curlist (some "") flags = some curlist) ∧
    compileRE eng curlist (some RE) flags = none := by
  cases curlist <;> simp [compileRE, hRE, hrej]

/-- Concrete instance of `compileRE_empty_and_rejected`: the engine that
rejects everything fails to compile the non-empty pattern `x`. -/
theorem compileRE_empty_and_rejected_witness :
    ("x" ≠ "") ∧ engNone.compiles "x" 5 = false ∧
    compileRE engNone [] (some "x") 5 = none :=
  ⟨by decide, by decide,
    (compileRE_empty_and_rejected engNone [] 5 "x" (by decide) (by decide)).2.2.2.2⟩

/-- C5: the optimised and fallback compilers are not match-equivalent on
every token sequence whose patterns pass the load-time length filter: with
buffer capacity 16 every token here has length at most 15, the optimiser
succeeds, yet it drops `defghijklm` in its buffer-full branch
while the fallback compiles it, so matching the word `defghijklm` gives
false on the optimised list and true on the fallback list. -/
theorem optimised_and_fallback_disagree :
    compileOptimisedREs engEq 16 [] ["abc", "defghijklm", "xy"] =
      some [⟨5, "(abc)"⟩, ⟨5, "(xy)"⟩] ∧
    ACLRegexData.matchWord engEq [⟨5, "(abc)"⟩, ⟨5, "(xy)"⟩]
      (some "defghijklm") = false ∧
    compileUnoptimisedREs engEq [] ["abc", "defghijklm", "xy"] =
      [⟨5, "abc"⟩, ⟨5, "defghijklm"⟩, ⟨5, "xy"⟩] ∧
    ACLRegexData.matchWord engEq [⟨5, "abc"⟩, ⟨5, "defghijklm"⟩, ⟨5, "xy"⟩]
      (some "defghijklm") = true := by
  exact ⟨by decide, by decide, by decide, by decide⟩

/-- C6 counterexample: `....*bar` does not trim to `bar` — the stripping
loop needs a complete leading `.` `*` pair, and `....*bar` starts with two
dots, so nothing is stripped at all. -/
theorem trimmer_dots_example_false :
    ¬ removeUnnecessaryWildcards "....*bar" = "bar" := by decide

/-- C6 (amended): the trimmer strips one leading `^.*` prefix, then
repeatedly strips leading complete `.*` units and never a lone leading `.`;
an empty result becomes the catch-all `.*`.  In particular `^.*foo` yields
`foo`, `....*bar` is left unchanged (its leading `..` is not a `.*` unit),
and `^.*` and the empty string each yield the catch-all. -/
theorem trimmer_strips_wildcards :
    removeUnnecessaryWildcards "^.*foo" = "foo" ∧
    removeUnnecessaryWildcards "....*bar" = "....*bar" ∧
    removeUnnecessaryWildcards "^.*" = ".*" ∧
    removeUnnecessaryWildcards "" = ".*" ∧
    (∀ l, stripDotStars ('.' :: '*' :: l) = stripDotStars l) ∧
    (∀ c l, c ≠ '*' → stripDotStars ('.' :: c :: l) = '.' :: c :: l) ∧
    (∀ c l, c ≠ '.' → stripDotStars (c :: l) = c :: l) := by
  refine ⟨by decide, by decide, by decide, by decide, fun l => ?_,
    fun c l hc => ?_, fun c l hc => ?_⟩
  · rw [stripDotStars, if_pos ⟨rfl, rfl⟩]
  · rw [stripDotStars, if_neg (fun h => hc h.2)]
  · cases l with
    | nil => rfl
    | cons c2 l2 => rw [stripDotStars, if_neg (fun h => hc h.1)]

/-- The serializer as §4.5 of the specification words it: a running
case-sensitivity tracker starting at sensitive (`false`); an entry whose
case-insensitivity differs from the tracker emits `-i` (turning insensitive
on) or `+i` (turning it off) before its source text and updates the
tracker; other entries emit only their source text.  Written from the
specification to be compared with `ACLRegexData.dump`. -/
def serializeSpecWalk : Bool → List RegexPattern → List String
  | _, [] => []
  | tracker, p :: rest =>
    let pIns := decide (p.flags &&& REG_ICASE ≠ 0)
    if pIns ≠ tracker then
      (if pIns then "-i" else "+i") :: p.text :: serializeSpecWalk pIns rest
    else
      p.text :: serializeSpecWalk tracker rest

/-- On lists whose entries carry the two flag values the loader produces,
the dump walk agrees with the specification's tracker walk, for a tracker
state matching the running flags. -/
theorem dumpWalk_eq_serializeSpecWalk :
    ∀ (data : List RegexPattern) (f : Nat), (f = 5 ∨ f = 7) →
      (∀ p ∈ data, p.flags = 5 ∨ p.flags = 7) →
      dumpWalk f data = serializeSpecWalk (decide (f &&& REG_ICASE ≠ 0)) data := by
  intro data
  induction data with
  | nil => intro f _ _; cases f <;> rfl
  | cons p rest ih =>
    intro f hf hall
    have hp := hall p (List.mem_cons_self p rest)
    have hrest : ∀ q ∈ rest, q.flags = 5 ∨ q.flags = 7 :=
      fun q hq => hall q (List.mem_cons_of_mem p hq)
    have a52 : (5 : Nat) &&& 2 = 0 := by decide
    have a72 : (7 : Nat) &&& 2 = 2 := by decide
    rcases hf with rfl | rfl <;> rcases hp with h | h <;>
      simp [dumpWalk, serializeSpecWalk, h, REG_ICASE, a52, a72,
        ih _ (Or.inl rfl) hrest, ih _ (Or.inr rfl) hrest]

/-- C7: on a compiled list whose entries carry the loader's two flag sets
(`REG_EXTENDED|REG_NOSUB` with or without `REG_ICASE`), `dump` emits exactly
what the specification's serializer describes: a case-sensitivity tracker
starting at sensitive, a `-i` or `+i` token before each entry whose
case-insensitivity differs from the tracker, then the entry's source text. -/
theorem dump_eq_serializeSpec (data : List RegexPattern)
    (h : ∀ p ∈ data, p.flags = REG_EXTENDED ||| REG_NOSUB ∨
      p.flags = REG_EXTENDED ||| REG_NOSUB ||| REG_ICASE) :
    ACLRegexData.dump data = serializeSpecWalk false data := by
  have e5 : REG_EXTENDED ||| REG_NOSUB = 5 := by decide
  have e7 : REG_EXTENDED ||| REG_NOSUB ||| REG_ICASE = 7 := by decide
  have h2 : ∀ p ∈ data, p.flags = 5 ∨ p.flags = 7 := by
    intro p hp
    rcases h p hp with hcase | hcase
    · exact Or.inl (e5 ▸ hcase)
    · exact Or.inr (e7 ▸ hcase)
  have := dumpWalk_eq_serializeSpecWalk data 5 (Or.inl rfl) h2
  rw [ACLRegexData.dump, e5, this]
  have a52 : 5 &&& REG_ICASE = 0 := by decide
  simp [a52]

/-- Concrete instance of `dump_eq_serializeSpec`: a case-sensitive entry
followed by a case-insensitive one dumps as `a`, `-i`, `b`. -/
theorem dump_eq_serializeSpec_witness :
    ACLRegexData.dump [⟨5, "a"⟩, ⟨7, "b"⟩] =
      serializeSpecWalk false [⟨5, "a"⟩, ⟨7, "b"⟩] :=
  dump_eq_serializeSpec [⟨5, "a"⟩, ⟨7, "b"⟩] (by decide)

/-- The token loop of `parse` keeps exactly the trimmed tokens whose length
fits below the buffer capacity, in their original order. -/
theorem buildSl_eq_filter (B : Nat) :
    ∀ tokens : List String,
      buildSl B tokens = (tokens.map removeUnnecessaryWildcards).filter
        (fun c => decide (c.length ≤ B - 1)) := by
  intro tokens
  induction tokens with
  | nil => rfl
  | cons t ts ih =>
    by_cases h : (removeUnnecessaryWildcards t).length > B - 1
    · have h2 : ¬ (removeUnnecessaryWildcards t).length ≤ B - 1 := Nat.not_le.mpr h
      simp [buildSl, h, h2, ih]
    · have h2 : (removeUnnecessaryWildcards t).length ≤ B - 1 := Nat.not_lt.mp h
      simp [buildSl, h, h2, ih]

/-- C8: during `parse` every raw token is first trimmed by
`removeUnnecessaryWildcards`; a trimmed token longer than `B - 1` is
dropped, and the remaining trimmed tokens are passed through unchanged and
in order — the compilers (optimised first, fallback on its failure) only
ever see that filtered sequence. -/
theorem parse_trims_and_drops_oversized (eng : RegexEngine) (B : Nat)
    (data : List RegexPattern) (tokens : List String) :
    buildSl B tokens = (tokens.map removeUnnecessaryWildcards).filter
      (fun c => decide (c.length ≤ B - 1)) ∧
    ACLRegexData.parse eng B data tokens =
      (match compileOptimisedREs eng B data
          ((tokens.map removeUnnecessaryWildcards).filter
            (fun c => decide (c.length ≤ B - 1))) with
      | some newdata => newdata
      | none => compileUnoptimisedREs eng data
          ((tokens.map removeUnnecessaryWildcards).filter
            (fun c => decide (c.length ≤ B - 1)))) := by
  refine ⟨buildSl_eq_filter B tokens, ?_⟩
  rw [ACLRegexData.parse, buildSl_eq_filter B tokens]

/-- The fallback compiler's effect, token by token: flag tokens toggle the
`REG_ICASE` state with no compilation, every other token is compiled alone
under the current flags, and a token the engine rejects (or an empty one)
contributes nothing while the walk continues. -/
def fallbackEntries (eng : RegexEngine) : Nat → List String → List RegexPattern
  | _, [] => []
  | flags, i :: rest =>
    if i = "-i" then fallbackEntries eng (flags ||| REG_ICASE) rest
    else if i = "+i" then fallbackEntries eng (clearICASE flags) rest
    else if i = "" then fallbackEntries eng flags rest
    else if eng.compiles i flags then ⟨flags, i⟩ :: fallbackEntries eng flags rest
    else fallbackEntries eng flags rest

/-- The fallback loop always completes and appends exactly the entries of
`fallbackEntries` to whatever list it starts from. -/
theorem compileUnoptLoop_eq_append (eng : RegexEngine) :
    ∀ (sl : List String) (flags : Nat) (curlist : List RegexPattern),
      compileUnoptLoop eng flags curlist sl =
        curlist ++ fallbackEntries eng flags sl := by
  intro sl
  induction sl with
  | nil => intro flags curlist; simp [compileUnoptLoop, fallbackEntries]
  | cons i rest ih =>
    intro flags curlist
    by_cases h1 : i = "-i"
    · simp [compileUnoptLoop, fallbackEntries, h1, ih]
    by_cases h2 : i = "+i"
    · simp [compileUnoptLoop, fallbackEntries, h1, h2, ih]
    by_cases h3 : i = ""
    · subst h3
      simp only [compileUnoptLoop, fallbackEntries, if_neg h1, if_neg h2,
        if_pos rfl, compileRE]
      cases curlist <;> simp [ih]
    by_cases h4 : eng.compiles i flags
    · simp [compileUnoptLoop, fallbackEntries, h1, h2, h3, h4, compileRE, ih]
    · simp [compileUnoptLoop, fallbackEntries, h1, h2, h3, h4, compileRE, ih]

/-- C9: the fallback compiler is total — it never fails as a whole.  Flag
tokens only toggle the case flag, each pattern token is compiled
individually under the current flags, and a pattern the engine rejects is
skipped alone: the result is always the destination list followed by one
entry per surviving pattern, in order. -/
theorem fallback_total_and_per_pattern (eng : RegexEngine)
    (curlist : List RegexPattern) (sl : List String) :
    compileUnoptimisedREs eng curlist sl =
      curlist ++ fallbackEntries eng (REG_EXTENDED ||| REG_NOSUB) sl :=
  compileUnoptLoop_eq_append eng sl (REG_EXTENDED ||| REG_NOSUB) curlist

/-- One optimiser step keeps the accumulation buffer, terminator included,
within the `B`-byte capacity: the append guard admits a pattern only when
pipe, parentheses, pattern bytes and terminator all fit, and every other
branch resets the buffer to empty. -/
theorem optStep_largeRE_bound (eng : RegexEngine) (B : Nat) (s : OptState)
    (i : String) (s2 : OptState) (hB : 1 ≤ B) (hs : s.largeRE.length + 1 ≤ B)
    (h : optStep eng B s i = some s2) : s2.largeRE.length + 1 ≤ B := by
  have lp : ("(" : String).length = 1 := rfl
  have rp : (")" : String).length = 1 := rfl
  have pp : ("|" : String).length = 1 := rfl
  simp only [optStep] at h
  split at h
  · split at h
    · injection h with h; subst h; exact hs
    · split at h
      · cases h
      · injection h with h; subst h; simpa using hB
  · split at h
    · split at h
      · injection h with h; subst h; exact hs
      · split at h
        · cases h
        · injection h with h; subst h; simpa using hB
    · split at h
      · next hlt =>
        injection h with h; subst h
        by_cases hp : s.largeRE.length > 0 <;>
          simp only [hp, if_pos, if_neg, String.length_append, lp, rp, pp,
            not_false_iff, gt_iff_lt, if_true, if_false] <;>
          omega
      · split at h
        · cases h
        · injection h with h; subst h; simpa using hB

/-- Along any run of the optimiser loop that reaches a state, the
accumulation buffer of that state, terminator included, stays within the
`B`-byte capacity. -/
theorem optLoop_largeRE_bound (eng : RegexEngine) (B : Nat) :
    ∀ (sl : List String) (s s2 : OptState), 1 ≤ B →
      s.largeRE.length + 1 ≤ B → optLoop eng B s sl = some s2 →
      s2.largeRE.length + 1 ≤ B := by
  intro sl
  induction sl with
  | nil =>
    intro s s2 _ hs h
    injection h with h; subst h; exact hs
  | cons i rest ih =>
    intro s s2 hB hs h
    simp only [optLoop] at h
    cases hstep : optStep eng B s i with
    | none => rw [hstep] at h; cases h
    | some s3 =>
      rw [hstep] at h
      exact ih s3 s2 hB (optStep_largeRE_bound eng B s i s3 hB hs hstep) h

/-- C10: provided every pattern-text token fits the load-time length limit
`B - 1`, the accumulation buffer index (the length of `largeRE`) never
exceeds the buffer capacity in any state the optimiser loop reaches: the
buffer content plus its terminator always fits in the `B`-byte buffer, so
every append of `|`, `(`, the pattern bytes, `)` and the terminator lands
strictly within it.  Quantifying over the token list covers every
intermediate state, since each is the final state of the run on a prefix. -/
theorem optimiser_buffer_within_capacity (eng : RegexEngine) (B : Nat)
    (sl : List String) (s : OptState) (hB : 1 ≤ B)
    (_hlen : ∀ p ∈ sl, p.length ≤ B - 1)
    (h : optLoop eng B optInit sl = some s) :
    s.largeRE.length + 1 ≤ B :=
  optLoop_largeRE_bound eng B sl optInit s hB (by simpa [optInit] using hB) h

/-- Concrete instance of `optimiser_buffer_within_capacity`: with capacity
16 the single token `ab` accumulates to `(ab)`, which fits. -/
theorem optimiser_buffer_within_capacity_witness :
    optLoop engAll 16 optInit ["ab"] = some ⟨[], 5, "(ab)", 1⟩ ∧
    (OptState.mk [] 5 "(ab)" 1).largeRE.length + 1 ≤ 16 :=
  ⟨by decide, optimiser_buffer_within_capacity engAll 16 ["ab"] ⟨[], 5, "(ab)", 1⟩
    (by decide) (by decide) (by decide)⟩
